import Mathlib

/-!
Verification of the event-distribution core and market simulation of the
CryptoStream dashboard (single-file Go SSE application, `main.go`).

The Go code is embedded shallowly:
* floating-point market arithmetic is modelled exactly over `ℚ`
  (`rand.Float64` draws become rational parameters in `[0, 1)`);
* the subscriber registry (`clients` map guarded by `clientsMu`) becomes a
  list of channel identifiers together with a store of channel states;
* a Go buffered channel (`make(chan SSEMessage, 10)`) becomes a bounded
  FIFO (`Channel`), and operations that can panic in Go (`close` of a
  closed channel, send on a closed channel) return `Except GoPanic`;
* lock usage of `updatePrices` / `getCryptoList` is embedded as an explicit
  access trace so that the lock discipline itself can be stated.
-/

namespace CryptoStream

/-- Market state of one cryptocurrency (`Crypto` struct in `main.go`). -/
structure Crypto where
  Symbol : String
  Name : String
  Price : ℚ
  Change24h : ℚ
  Volume : ℚ
  High24h : ℚ
  Low24h : ℚ
deriving DecidableEq

/-- A single trade transaction (`Trade` struct in `main.go`). The Go field
`Type` is rendered `Type'` because `Type` is not a valid field name in Lean. -/
structure Trade where
  ID : String
  Symbol : String
  Type' : String
  Price : ℚ
  Amount : ℚ
  Total : ℚ
  Timestamp : String
deriving DecidableEq

/-- A market alert (`Alert` struct in `main.go`). -/
structure Alert where
  ID : String
  Type' : String
  Title : String
  Message : String
  Timestamp : String
deriving DecidableEq

/-- The `interface\x7b\x7d`-typed `Data` field of `SSEMessage`, closed into the
payload shapes the program actually broadcasts. -/
inductive EventData where
  | prices (l : List Crypto)
  | trade (t : Trade)
  | alert (a : Alert)
  | stats (totalTrades : Int) (totalVolume : ℚ) (activeTraders : Int) (timestamp : String)
  | initMsg (cryptos : List Crypto) (message : String)
deriving DecidableEq

/-- An SSE envelope (`SSEMessage` struct in `main.go`). -/
structure SSEMessage where
  Event : String
  Data : EventData
deriving DecidableEq

/-- The fixed symbol list iterated by `updatePrices` and `generateTrade`. -/
def symbols : List String :=
  [ "BTC", "ETH", "SOL", "ADA", "DOT", "AVAX" ]

/-- The seed market state (`cryptos` package-level map in `main.go`),
listed in the order of `symbols`. -/
def initCryptos : List Crypto :=
  [ ⟨ "BTC", "Bitcoin", 43250, 2.5, 28500000000, 44100, 42800 ⟩,
    ⟨ "ETH", "Ethereum", 2280, -1.2, 15200000000, 2350, 2250 ⟩,
    ⟨ "SOL", "Solana", 98.5, 5.8, 2100000000, 102, 94 ⟩,
    ⟨ "ADA", "Cardano", 0.52, -0.8, 450000000, 0.55, 0.50 ⟩,
    ⟨ "DOT", "Polkadot", 7.25, 1.3, 320000000, 7.50, 7.10 ⟩,
    ⟨ "AVAX", "Avalanche", 35.80, 3.2, 580000000, 37.00, 34.50 ⟩ ]

/-- `math.Round`: round to the nearest integer, half away from zero. -/
def mathRound (x : ℚ) : ℚ :=
  if 0 ≤ x then (⌊x + 1/2⌋ : ℤ) else (-⌊-x + 1/2⌋ : ℤ)

/-- The three `rand.Float64()` draws consumed for one symbol inside the
`updatePrices` loop body, in program order: price perturbation, 24h-change
drift, volume increment. Each models a value in `[0, 1)`. -/
structure RandTick where
  r1 : ℚ
  r2 : ℚ
  r3 : ℚ
deriving DecidableEq

/-- The body of the `updatePrices` per-symbol loop (`main.go` lines 170-192):
perturb the price by `(rand.Float64() - 0.5) * 4` percent of itself, drift
`Change24h` by `(rand.Float64() - 0.5) * 0.5` clamped into `[-20, 20]`,
update the running `High24h` / `Low24h` against the new price, and grow the
volume by `rand.Float64() * 10000000`. -/
def updateCrypto (c : Crypto) (t : RandTick) : Crypto :=
  let changePercent : ℚ := (t.r1 - 0.5) * 4
  let priceChange : ℚ := c.Price * (changePercent / 100)
  let price' : ℚ := c.Price + priceChange
  let change' : ℚ := max (-20) (min 20 (c.Change24h + (t.r2 - 0.5) * 0.5))
  let high' : ℚ := if price' > c.High24h then price' else c.High24h
  let low' : ℚ := if price' < c.Low24h then price' else c.Low24h
  ⟨ c.Symbol, c.Name, price', change', c.Volume + t.r3 * 10000000, high', low' ⟩

/-- One full price tick over the tracked market (`updatePrices`, with the
random draws of each loop iteration supplied positionally). -/
def updatePrices (market : List Crypto) (rs : List RandTick) : List Crypto :=
  (market.zip rs).map fun p => updateCrypto p.1 p.2

/-- Iterated price ticks on a single symbol's state. -/
def runTicks (c : Crypto) (ts : List RandTick) : Crypto :=
  ts.foldl updateCrypto c

/-- `generateTrade` (`main.go` lines 202-225), with its random draws and
clock reads supplied as parameters: `amountRaw` is the raw
`rand.Float64() * 10` (or `* 2` for BTC) draw, `price` the symbol's current
price, `side` the buy/sell coin flip, `id` and `ts` the identifier and
timestamp strings. -/
def generateTrade (symbol : String) (price : ℚ) (amountRaw : ℚ)
    (side : String) (id : String) (ts : String) : Trade :=
  { ID := id
    Symbol := symbol
    Type' := side
    Price := price
    Amount := mathRound (amountRaw * 10000) / 10000
    Total := mathRound (price * amountRaw * 100) / 100
    Timestamp := ts }

/-! ## Subscriber registry and broadcast hub -/

/-- The two Go runtime panics the embedded channel operations can raise. -/
inductive GoPanic where
  | closeOfClosedChannel
  | sendOnClosedChannel
deriving DecidableEq

/-- A Go buffered channel of `SSEMessage` (`make(chan SSEMessage, 10)` in
`handleSSE`): a bounded FIFO buffer plus a closed flag. -/
structure Channel where
  capacity : Nat
  buffer : List SSEMessage
  closed : Bool
deriving DecidableEq

/-- The channel `handleSSE` creates for a new subscriber. -/
def newClientChan : Channel :=
  { capacity := 10, buffer := [], closed := false }

/-- The hub's shared state: the `clients` registry (set of channels, here
identified by `Nat` handles into a channel store) and the `activeTraders`
counter. The mutexes serialize access; the embedded operations act on the
state they guard. -/
structure HubState where
  clients : List Nat
  chans : Nat → Channel
  activeTraders : Int

/-- Process start: no registered subscriber, every channel handle fresh. -/
def initHub : HubState :=
  { clients := [], chans := fun _ => newClientChan, activeTraders := 0 }

/-- Point update of the channel store. -/
def setChan (s : HubState) (id : Nat) (c : Channel) : HubState :=
  { s with chans := fun j => if j = id then c else s.chans j }

/-- `addClient` (`main.go` lines 90-100): `clients[ch] = true` (map insert,
a no-op on the key set when the key is present) and `activeTraders++`. -/
def addClient (id : Nat) (s : HubState) : HubState :=
  { s with
    clients := if id ∈ s.clients then s.clients else id :: s.clients
    activeTraders := s.activeTraders + 1 }

/-- Go `close(ch)`: panics when the channel is already closed. -/
def closeChan (c : Channel) : Except GoPanic Channel :=
  if c.closed then .error .closeOfClosedChannel
  else .ok { c with closed := true }

/-- `removeClient` (`main.go` lines 103-114): `delete(clients, ch)`, then
`close(ch)` (which panics on a second call for the same channel), then
`activeTraders--`. The panic aborts the call before the counter update. -/
def removeClient (id : Nat) (s : HubState) : Except GoPanic HubState :=
  let s1 : HubState := { s with clients := s.clients.erase id }
  match closeChan (s1.chans id) with
  | .error e => .error e
  | .ok c' => .ok { setChan s1 id c' with activeTraders := s1.activeTraders - 1 }

/-- A `select` with a `default` branch around `ch <- msg`: append when the
buffer has room, drop silently when it is full, panic when the channel is
closed (a Go send on a closed channel panics even inside `select`). -/
def trySend (msg : SSEMessage) (c : Channel) : Except GoPanic Channel :=
  if c.closed then .error .sendOnClosedChannel
  else if c.buffer.length < c.capacity then .ok { c with buffer := c.buffer ++ [msg] }
  else .ok c

/-- The pure effect of one non-panicking `trySend` on a channel. -/
def sendResult (msg : SSEMessage) (c : Channel) : Channel :=
  if c.buffer.length < c.capacity then { c with buffer := c.buffer ++ [msg] } else c

/-- The `for ch := range clients` loop body of `broadcast`, iterated over a
snapshot of the registered channel handles. -/
def broadcastLoop (msg : SSEMessage) : List Nat → HubState → Except GoPanic HubState
  | [], s => .ok s
  | id :: rest, s =>
    match trySend msg (s.chans id) with
    | .error e => .error e
    | .ok c' => broadcastLoop msg rest (setChan s id c')

/-- `broadcast` (`main.go` lines 117-128): under `clientsMu.RLock`, attempt a
non-blocking send of `msg` to every registered channel. -/
def broadcast (msg : SSEMessage) (s : HubState) : Except GoPanic HubState :=
  broadcastLoop msg s.clients s

/-- A sequence of publishes. -/
def publishList : List SSEMessage → HubState → Except GoPanic HubState
  | [], s => .ok s
  | m :: ms, s =>
    match broadcast m s with
    | .error e => .error e
    | .ok s' => publishList ms s'

/-! ## Hub lemmas -/

lemma setChan_chans (s : HubState) (id : Nat) (c : Channel) (j : Nat) :
    (setChan s id c).chans j = if j = id then c else s.chans j := rfl

lemma trySend_open {c : Channel} (msg : SSEMessage) (h : c.closed = false) :
    trySend msg c = .ok (sendResult msg c) := by
  simp only [trySend, sendResult, h, Bool.false_eq_true, if_false]
  split <;> rfl

lemma sendResult_closed (msg : SSEMessage) (c : Channel) :
    (sendResult msg c).closed = c.closed := by
  simp only [sendResult]
  split <;> rfl

lemma sendResult_capacity (msg : SSEMessage) (c : Channel) :
    (sendResult msg c).capacity = c.capacity := by
  simp only [sendResult]
  split <;> rfl

/-- One broadcast pass over a duplicate-free snapshot of open channels
succeeds and acts pointwise: each snapshot channel receives the message when
its buffer has room and is untouched when it is full; channels outside the
snapshot are untouched; registry and counter are untouched. -/
lemma broadcastLoop_ok (msg : SSEMessage) (l : List Nat) :
    ∀ s : HubState, l.Nodup → (∀ id ∈ l, (s.chans id).closed = false) →
      ∃ s', broadcastLoop msg l s = .ok s' ∧
        s'.clients = s.clients ∧
        s'.activeTraders = s.activeTraders ∧
        ∀ j, s'.chans j = if j ∈ l then sendResult msg (s.chans j) else s.chans j := by
  induction l with
  | nil =>
    intro s _ _
    exact ⟨s, rfl, rfl, rfl, by intro j; simp⟩
  | cons a l ih =>
    intro s hnd hop
    obtain ⟨hal, hndl⟩ := List.nodup_cons.mp hnd
    have ha : (s.chans a).closed = false := hop a (by simp)
    have hop1 : ∀ id ∈ l, ((setChan s a (sendResult msg (s.chans a))).chans id).closed = false := by
      intro id hid
      have hne : id ≠ a := fun h => hal (h ▸ hid)
      rw [setChan_chans]
      simp only [hne, if_false]
      exact hop id (by simp [hid])
    obtain ⟨s', h1, h2, h3, h4⟩ := ih (setChan s a (sendResult msg (s.chans a))) hndl hop1
    refine ⟨s', ?_, ?_, ?_, ?_⟩
    · simpa [broadcastLoop, trySend_open msg ha] using h1
    · rw [h2]; rfl
    · rw [h3]; rfl
    · intro j
      rcases eq_or_ne j a with rfl | hj
      · rw [h4 j]
        simp [hal, setChan_chans]
      · rw [h4 j]
        by_cases hjl : j ∈ l
        · simp [hjl, hj, setChan_chans]
        · simp [hjl, hj, setChan_chans]

/-- `broadcast` on a well-formed registry: never panics, drops on full,
appends otherwise, and touches nothing else. -/
lemma broadcast_ok {s : HubState} (msg : SSEMessage)
    (hnd : s.clients.Nodup) (hop : ∀ id ∈ s.clients, (s.chans id).closed = false) :
    ∃ s', broadcast msg s = .ok s' ∧
      s'.clients = s.clients ∧
      s'.activeTraders = s.activeTraders ∧
      ∀ j, s'.chans j = if j ∈ s.clients then sendResult msg (s.chans j) else s.chans j :=
  broadcastLoop_ok msg s.clients s hnd hop

/-- The registry invariant maintained by the lock discipline: no duplicate
registration and every registered channel is open. -/
def HubInv (s : HubState) : Prop :=
  s.clients.Nodup ∧ ∀ id ∈ s.clients, (s.chans id).closed = false

lemma publishList_ok (msgs : List SSEMessage) :
    ∀ s : HubState, HubInv s →
      ∃ s', publishList msgs s = .ok s' ∧
        s'.clients = s.clients ∧ HubInv s' ∧
        ∀ j, j ∉ s.clients → s'.chans j = s.chans j := by
  induction msgs with
  | nil =>
    intro s hinv
    exact ⟨s, rfl, rfl, hinv, fun j _ => rfl⟩
  | cons m ms ih =>
    intro s hinv
    obtain ⟨s1, hb, hcl, hat, hch⟩ := broadcast_ok m hinv.1 hinv.2
    have hinv1 : HubInv s1 := by
      refine ⟨hcl ▸ hinv.1, ?_⟩
      intro id hid
      rw [hcl] at hid
      rw [hch id]
      simp only [hid, if_true, sendResult_closed]
      exact hinv.2 id hid
    obtain ⟨s', h1, h2, h3, h4⟩ := ih s1 hinv1
    refine ⟨s', by simp [publishList, hb, h1], by rw [h2, hcl], h3, ?_⟩
    intro j hj
    rw [h4 j (by rw [hcl]; exact hj), hch j]
    simp [hj]

/-- The state a successful `removeClient id` leaves behind: `id` erased from
the registry, its channel closed, the counter decremented. -/
def removedState (s : HubState) (id : Nat) : HubState :=
  { clients := s.clients.erase id
    chans := fun j => if j = id then { s.chans id with closed := true } else s.chans j
    activeTraders := s.activeTraders - 1 }

lemma removeClient_open {s : HubState} {id : Nat} (h : (s.chans id).closed = false) :
    removeClient id s = .ok (removedState s id) := by
  simp [removeClient, closeChan, h, removedState, setChan]

/-- A registry operation: `register` (`addClient`) or `unregister`
(`removeClient`) of a given sink handle. -/
inductive RegOp where
  | add (id : Nat)
  | remove (id : Nat)

/-- Run a sequence of registry operations, propagating any Go panic. -/
def runOps : List RegOp → HubState → Except GoPanic HubState
  | [], s => .ok s
  | RegOp.add id :: ops, s => runOps ops (addClient id s)
  | RegOp.remove id :: ops, s =>
    match removeClient id s with
    | .error e => .error e
    | .ok s' => runOps ops s'

/-- A registry-operation sequence in which every unregister targets a
currently-registered sink and every register targets a fresh sink (not
currently registered and not previously closed). -/
inductive GoodSeq : HubState → List RegOp → Prop where
  | nil (s : HubState) : GoodSeq s []
  | add (s : HubState) (id : Nat) (ops : List RegOp) :
      id ∉ s.clients → (s.chans id).closed = false →
      GoodSeq (addClient id s) ops → GoodSeq s (RegOp.add id :: ops)
  | remove (s : HubState) (id : Nat) (ops : List RegOp) :
      id ∈ s.clients →
      GoodSeq (removedState s id) ops → GoodSeq s (RegOp.remove id :: ops)

/-! ## Demo inputs used by witnesses -/

/-- A concrete event used to exercise the hub. -/
def demoMsg : SSEMessage :=
  { Event := "alert"
    Data := .alert { ID := "A1", Type' := "info", Title := "T", Message := "M", Timestamp := "00:00:00" } }

/-- A concrete hub state with two registered subscribers. -/
def demoHub : HubState :=
  addClient 1 (addClient 0 initHub)

/-! ## Claims -/

/-- C1: for every publish of an event and every sink in the registry snapshot
the broadcast iterates over, a sink whose bounded queue (capacity 10) has
free space receives the event appended, a full sink's queue is left
unchanged (silent drop for that sink only), the publish terminates normally
without blocking or retrying, sinks outside the registry are untouched, and
no sink's queue ever holds more than its capacity of 10 items. -/
theorem c1_publish_nonblocking_drop_on_full (s : HubState) (msg : SSEMessage)
    (hnd : s.clients.Nodup)
    (hreg : ∀ id ∈ s.clients, (s.chans id).closed = false ∧
      (s.chans id).capacity = 10 ∧ (s.chans id).buffer.length ≤ 10) :
    ∃ s', broadcast msg s = .ok s' ∧
      (∀ id ∈ s.clients,
        ((s.chans id).buffer.length < 10 →
          (s'.chans id).buffer = (s.chans id).buffer ++ [msg]) ∧
        ((s.chans id).buffer.length = 10 → s'.chans id = s.chans id) ∧
        (s'.chans id).buffer.length ≤ 10) ∧
      ∀ j, j ∉ s.clients → s'.chans j = s.chans j := by
  obtain ⟨s', h1, _, _, h4⟩ := broadcast_ok msg hnd (fun id hid => (hreg id hid).1)
  refine ⟨s', h1, ?_, ?_⟩
  · intro id hid
    obtain ⟨-, hcap, hlen⟩ := hreg id hid
    have hch : s'.chans id = sendResult msg (s.chans id) := by
      rw [h4 id]
      simp [hid]
    refine ⟨?_, ?_, ?_⟩
    · intro hlt
      rw [hch]
      simp [sendResult, hcap, hlt]
    · intro heq
      rw [hch]
      simp [sendResult, hcap, heq]
    · rw [hch]
      by_cases hlt : (s.chans id).buffer.length < (s.chans id).capacity
      · rw [hcap] at hlt
        simp only [sendResult, hcap, hlt, if_true, List.length_append, List.length_cons,
          List.length_nil]
        omega
      · simp only [sendResult, hlt, if_false]
        exact hlen
  · intro j hj
    rw [h4 j]
    simp [hj]

/-- Witness for C1 at a concrete two-subscriber hub state. -/
theorem c1_publish_nonblocking_drop_on_full_witness :
    demoHub.clients.Nodup ∧
    (∀ id ∈ demoHub.clients, (demoHub.chans id).closed = false ∧
      (demoHub.chans id).capacity = 10 ∧ (demoHub.chans id).buffer.length ≤ 10) ∧
    (∃ s', broadcast demoMsg demoHub = .ok s' ∧
      (∀ id ∈ demoHub.clients,
        ((demoHub.chans id).buffer.length < 10 →
          (s'.chans id).buffer = (demoHub.chans id).buffer ++ [demoMsg]) ∧
        ((demoHub.chans id).buffer.length = 10 → s'.chans id = demoHub.chans id) ∧
        (s'.chans id).buffer.length ≤ 10) ∧
      ∀ j, j ∉ demoHub.clients → s'.chans j = demoHub.chans j) :=
  ⟨by decide, by decide,
    c1_publish_nonblocking_drop_on_full demoHub demoMsg (by decide) (by decide)⟩

/-- C2 (code behaviour at the claim's failing input): after a sink has been
unregistered once, a second `removeClient` on it does not terminate
normally — it panics closing an already-closed channel. -/
theorem c2_second_unregister_panics :
    ∃ s₁, removeClient 0 (addClient 0 initHub) = .ok s₁ ∧
      removeClient 0 s₁ = .error GoPanic.closeOfClosedChannel :=
  ⟨_, rfl, rfl⟩

/-- C6: after `removeClient S` completes, S is out of the registry, and every
subsequent sequence of publishes succeeds and leaves S's queue — its channel
state, hence its size and contents — unchanged. -/
theorem c6_unregistered_sink_untouched_by_publish (s : HubState) (S : Nat)
    (hinv : HubInv s) (hS : S ∈ s.clients) :
    ∃ s₁, removeClient S s = .ok s₁ ∧ S ∉ s₁.clients ∧
      ∀ msgs : List SSEMessage, ∃ s₂, publishList msgs s₁ = .ok s₂ ∧
        s₂.chans S = s₁.chans S ∧ (s₂.chans S).buffer = (s₁.chans S).buffer := by
  have hop := hinv.2 S hS
  have hnot : S ∉ (removedState s S).clients := hinv.1.not_mem_erase
  refine ⟨removedState s S, removeClient_open hop, hnot, ?_⟩
  intro msgs
  have hinv1 : HubInv (removedState s S) := by
    refine ⟨hinv.1.erase S, ?_⟩
    intro id hid
    have hne : id ≠ S := (hinv.1.mem_erase_iff.mp hid).1
    have hmem : id ∈ s.clients := (hinv.1.mem_erase_iff.mp hid).2
    show ((removedState s S).chans id).closed = false
    simp only [removedState, hne, if_false]
    exact hinv.2 id hmem
  obtain ⟨s₂, h1, _, _, h4⟩ := publishList_ok msgs (removedState s S) hinv1
  exact ⟨s₂, h1, h4 S hnot, by rw [h4 S hnot]⟩

/-- Witness for C6: unregister sink 0 from the demo hub, then publish two
events; sink 0's queue is untouched. -/
theorem c6_unregistered_sink_untouched_by_publish_witness :
    HubInv demoHub ∧ 0 ∈ demoHub.clients ∧
    (∃ s₁, removeClient 0 demoHub = .ok s₁ ∧ (0 : Nat) ∉ s₁.clients ∧
      ∀ msgs : List SSEMessage, ∃ s₂, publishList msgs s₁ = .ok s₂ ∧
        s₂.chans 0 = s₁.chans 0 ∧ (s₂.chans 0).buffer = (s₁.chans 0).buffer) :=
  ⟨⟨by decide, by decide⟩, by decide,
    c6_unregistered_sink_untouched_by_publish demoHub 0 ⟨by decide, by decide⟩ (by decide)⟩

lemma runOps_good {s : HubState} {ops : List RegOp} (h : GoodSeq s ops) :
    s.clients.Nodup → (∀ id ∈ s.clients, (s.chans id).closed = false) →
    s.activeTraders = s.clients.length →
    ∃ s', runOps ops s = .ok s' ∧ s'.clients.Nodup ∧
      s'.activeTraders = s'.clients.length := by
  induction h with
  | nil s =>
    intro h1 _ h3
    exact ⟨s, rfl, h1, h3⟩
  | add s id ops hfresh hopen _ ih =>
    intro hnd hop hcnt
    have hcl : (addClient id s).clients = id :: s.clients := by
      simp [addClient, hfresh]
    have hch : (addClient id s).chans = s.chans := rfl
    obtain ⟨s', h1, h2, h3⟩ := ih
      (by rw [hcl]; exact List.nodup_cons.mpr ⟨hfresh, hnd⟩)
      (by
        intro j hj
        rw [hcl] at hj
        rw [hch]
        rcases List.mem_cons.mp hj with rfl | hj'
        · exact hopen
        · exact hop j hj')
      (by
        show s.activeTraders + 1 = ((addClient id s).clients.length : Int)
        rw [hcl]
        simp only [List.length_cons]
        omega)
    exact ⟨s', h1, h2, h3⟩
  | remove s id ops hmem _ ih =>
    intro hnd hop hcnt
    have hopen := hop id hmem
    have hlen := List.length_erase_add_one hmem
    obtain ⟨s', h1, h2, h3⟩ := ih
      (hnd.erase id)
      (by
        intro j hj
        have hne : j ≠ id := (hnd.mem_erase_iff.mp hj).1
        have hmemj : j ∈ s.clients := (hnd.mem_erase_iff.mp hj).2
        show ((removedState s id).chans j).closed = false
        simp only [removedState, hne, if_false]
        exact hop j hmemj)
      (by
        show s.activeTraders - 1 = ((s.clients.erase id).length : Int)
        omega)
    refine ⟨s', ?_, h2, h3⟩
    show runOps (RegOp.remove id :: ops) s = .ok s'
    simp [runOps, removeClient_open hopen, h1]

/-- C10 counterexample: registering the same sink twice (a sequence whose
every unregister — there are none — targets a registered sink) desynchronizes
the counter from the registry: the map insert is a no-op on the key set while
the counter still increments. -/
theorem c10_register_twice_counterexample :
    ∃ s, runOps [RegOp.add 0, RegOp.add 0] initHub = .ok s ∧
      s.clients.length = 1 ∧ s.activeTraders = 2 ∧
      s.activeTraders ≠ (s.clients.length : Int) := by
  refine ⟨_, rfl, ?_, ?_, ?_⟩ <;> decide

/-- C10 (amended): after any sequence of register/unregister operations in
which every unregister targets a currently-registered sink and every
register targets a fresh sink, the run completes without panic and the
active-subscriber counter equals the number of sinks in the registry. -/
theorem c10_counter_equals_registry_size (ops : List RegOp)
    (h : GoodSeq initHub ops) :
    ∃ s', runOps ops initHub = .ok s' ∧
      s'.activeTraders = (s'.clients.length : Int) := by
  obtain ⟨s', h1, _, h3⟩ := runOps_good h (by decide) (by intro id hid; cases hid) (by decide)
  exact ⟨s', h1, h3⟩

/-- A concrete valid operation sequence: register 0, register 1, unregister 0. -/
def demoOps : List RegOp :=
  [RegOp.add 0, RegOp.add 1, RegOp.remove 0]

/-- Witness for C10 at the concrete sequence `demoOps`. -/
theorem c10_counter_equals_registry_size_witness :
    GoodSeq initHub demoOps ∧
    ∃ s', runOps demoOps initHub = .ok s' ∧
      s'.activeTraders = (s'.clients.length : Int) := by
  have h : GoodSeq initHub demoOps := by
    refine GoodSeq.add _ _ _ (by decide) (by decide) ?_
    refine GoodSeq.add _ _ _ (by decide) (by decide) ?_
    exact GoodSeq.remove _ _ _ (by decide) (GoodSeq.nil _)
  exact ⟨h, c10_counter_equals_registry_size demoOps h⟩

/-! ## Market simulation lemmas -/

lemma updateCrypto_price_pos {c : Crypto} {t : RandTick}
    (hp : 0 < c.Price) (hr : 0 ≤ t.r1) : 0 < (updateCrypto c t).Price := by
  show 0 < c.Price + c.Price * ((t.r1 - 0.5) * 4 / 100)
  nlinarith [mul_nonneg hp.le hr]

lemma updateCrypto_high_eq (c : Crypto) (t : RandTick) :
    (updateCrypto c t).High24h = max c.High24h (updateCrypto c t).Price := by
  show (if (updateCrypto c t).Price > c.High24h then (updateCrypto c t).Price else c.High24h) =
    max c.High24h (updateCrypto c t).Price
  by_cases h : c.High24h < (updateCrypto c t).Price
  · rw [if_pos h, max_eq_right h.le]
  · rw [if_neg h, max_eq_left (not_lt.mp h)]

lemma updateCrypto_low_eq (c : Crypto) (t : RandTick) :
    (updateCrypto c t).Low24h = min c.Low24h (updateCrypto c t).Price := by
  show (if (updateCrypto c t).Price < c.Low24h then (updateCrypto c t).Price else c.Low24h) =
    min c.Low24h (updateCrypto c t).Price
  by_cases h : (updateCrypto c t).Price < c.Low24h
  · rw [if_pos h, min_eq_right h.le]
  · rw [if_neg h, min_eq_left (not_lt.mp h)]

lemma updateCrypto_high_le (c : Crypto) (t : RandTick) :
    c.High24h ≤ (updateCrypto c t).High24h := by
  rw [updateCrypto_high_eq]
  exact le_max_left _ _

lemma updateCrypto_low_ge (c : Crypto) (t : RandTick) :
    (updateCrypto c t).Low24h ≤ c.Low24h := by
  rw [updateCrypto_low_eq]
  exact min_le_left _ _

lemma runTicks_cons (c : Crypto) (t : RandTick) (ts : List RandTick) :
    runTicks c (t :: ts) = runTicks (updateCrypto c t) ts := rfl

lemma runTicks_price_pos {c : Crypto} {ts : List RandTick}
    (hp : 0 < c.Price) (hr : ∀ t ∈ ts, 0 ≤ t.r1) : 0 < (runTicks c ts).Price := by
  induction ts generalizing c with
  | nil => exact hp
  | cons t ts ih =>
    rw [runTicks_cons]
    exact ih (updateCrypto_price_pos hp (hr t (by simp))) fun u hu => hr u (by simp [hu])

/-- A concrete tick's random draws and a tick list for the whole market. -/
def demoTick : RandTick := ⟨0, 0, 0⟩

/-- One random draw per tracked symbol, as one `updatePrices` pass consumes. -/
def demoTicks : List RandTick := List.replicate 6 demoTick

/-- The seed state of BTC. -/
def btcSeed : Crypto := ⟨ "BTC", "Bitcoin", 43250, 2.5, 28500000000, 44100, 42800 ⟩

/-- A two-symbol market used as concrete witness input. -/
def demoMarket : List Crypto :=
  [ btcSeed, ⟨ "ETH", "Ethereum", 2280, -1.2, 15200000000, 2350, 2250 ⟩ ]

/-- C3: every price tick multiplies each tracked positive price by a factor
in `[0.98, 1.02)`, so the updated price stays strictly positive, both for a
single `updatePrices` pass over the market and along any sequence of ticks
on one symbol. -/
theorem c3_price_stays_positive :
    (∀ (market : List Crypto) (rs : List RandTick),
      (∀ c ∈ market, 0 < c.Price) → (∀ t ∈ rs, 0 ≤ t.r1 ∧ t.r1 < 1) →
      ∀ c' ∈ updatePrices market rs, 0 < c'.Price) ∧
    (∀ (c : Crypto) (ts : List RandTick),
      0 < c.Price → (∀ t ∈ ts, 0 ≤ t.r1 ∧ t.r1 < 1) →
      0 < (runTicks c ts).Price) := by
  constructor
  · intro market rs hm hr c' hc'
    simp only [updatePrices, List.mem_map] at hc'
    obtain ⟨⟨c, t⟩, hmem, rfl⟩ := hc'
    have hz := List.of_mem_zip hmem
    exact updateCrypto_price_pos (hm c hz.1) (hr t hz.2).1
  · intro c ts hp hr
    exact runTicks_price_pos hp fun t ht => (hr t ht).1

/-- Witness for C3: the seed market under one concrete tick pass, and BTC
under a concrete tick sequence. -/
theorem c3_price_stays_positive_witness :
    (∀ c ∈ demoMarket, 0 < c.Price) ∧ (∀ t ∈ demoTicks, 0 ≤ t.r1 ∧ t.r1 < 1) ∧
    (∀ c' ∈ updatePrices demoMarket demoTicks, 0 < c'.Price) ∧
    0 < (runTicks btcSeed demoTicks).Price :=
  ⟨by decide, by decide,
    c3_price_stays_positive.1 demoMarket demoTicks (by decide) (by decide),
    c3_price_stays_positive.2 btcSeed demoTicks (by decide) (by decide)⟩

/-- C4: after every price tick, every tracked symbol's 24h-change lies in
`[-20, 20]`, whatever its value before the tick. -/
theorem c4_change24h_clamped (market : List Crypto) (rs : List RandTick) :
    ∀ c' ∈ updatePrices market rs, -20 ≤ c'.Change24h ∧ c'.Change24h ≤ 20 := by
  intro c' hc'
  simp only [updatePrices, List.mem_map] at hc'
  obtain ⟨⟨c, t⟩, _, rfl⟩ := hc'
  constructor
  · exact le_max_left _ _
  · show max (-20) (min 20 (c.Change24h + (t.r2 - 0.5) * 0.5)) ≤ 20
    exact max_le (by norm_num) (min_le_left _ _)

/-- Witness for C4 at a concrete updated symbol of the seed market. -/
theorem c4_change24h_clamped_witness :
    updateCrypto btcSeed demoTick ∈ updatePrices demoMarket demoTicks ∧
    (-20 ≤ (updateCrypto btcSeed demoTick).Change24h ∧
      (updateCrypto btcSeed demoTick).Change24h ≤ 20) :=
  ⟨List.mem_cons_self _ _,
    c4_change24h_clamped demoMarket demoTicks (updateCrypto btcSeed demoTick)
      (List.mem_cons_self _ _)⟩

/-- C8: each tick sets the 24h high to the maximum of its previous value and
the new price and the 24h low to the minimum of its previous value and the
new price; hence the high never decreases and the low never increases — also
across tick sequences — and low ≤ price ≤ high holds after every tick. -/
theorem c8_running_extrema :
    (∀ (c : Crypto) (t : RandTick),
      (updateCrypto c t).High24h = max c.High24h (updateCrypto c t).Price ∧
      (updateCrypto c t).Low24h = min c.Low24h (updateCrypto c t).Price ∧
      c.High24h ≤ (updateCrypto c t).High24h ∧
      (updateCrypto c t).Low24h ≤ c.Low24h ∧
      (updateCrypto c t).Low24h ≤ (updateCrypto c t).Price ∧
      (updateCrypto c t).Price ≤ (updateCrypto c t).High24h) ∧
    (∀ (c : Crypto) (ts : List RandTick),
      c.High24h ≤ (runTicks c ts).High24h ∧ (runTicks c ts).Low24h ≤ c.Low24h) := by
  constructor
  · intro c t
    refine ⟨updateCrypto_high_eq c t, updateCrypto_low_eq c t,
      updateCrypto_high_le c t, updateCrypto_low_ge c t, ?_, ?_⟩
    · rw [updateCrypto_low_eq]
      exact min_le_right _ _
    · rw [updateCrypto_high_eq]
      exact le_max_right _ _
  · intro c ts
    induction ts generalizing c with
    | nil => exact ⟨le_refl _, le_refl _⟩
    | cons t ts ih =>
      rw [runTicks_cons]
      exact ⟨(updateCrypto_high_le c t).trans (ih (updateCrypto c t)).1,
        ((ih (updateCrypto c t)).2).trans (updateCrypto_low_ge c t)⟩

/-! ## Trade total (C5) -/

lemma mathRound_nonneg_eq (x : ℚ) (n : ℤ) (h0 : 0 ≤ x)
    (h1 : (n : ℚ) ≤ x + 1/2) (h2 : x + 1/2 < n + 1) :
    mathRound x = n := by
  rw [mathRound, if_pos h0]
  norm_cast
  exact Int.floor_eq_iff.mpr ⟨h1, h2⟩

/-- The SSE envelope `generateTrade` hands to `broadcast`. -/
def tradeMsg (t : Trade) : SSEMessage :=
  { Event := "trade", Data := .trade t }

/-- C5 counterexample: the `total` field is computed from the raw drawn
amount, not from the trade's 4-decimal-rounded `amount` field. At price
43250 and raw amount 1/100000, `amount` rounds to 0, so price × amount
rounded to 2 decimals is 0, while the actual `total` is 43.25 rounded
to 43/100. -/
theorem c5_total_from_amount_field_counterexample :
    (generateTrade "BTC" 43250 (1/100000) "buy" "T1" "00:00:00").Total ≠
      mathRound
        (43250 * (generateTrade "BTC" 43250 (1/100000) "buy" "T1" "00:00:00").Amount * 100)
        / 100 := by
  have hA : mathRound ((1/100000 : ℚ) * 10000) = 0 := by
    rw [show ((1/100000 : ℚ) * 10000) = 1/10 by norm_num]
    exact_mod_cast mathRound_nonneg_eq (1/10) 0 (by norm_num) (by norm_num) (by norm_num)
  have hT : mathRound ((43250 : ℚ) * (1/100000) * 100) = 43 := by
    rw [show ((43250 : ℚ) * (1/100000) * 100) = 173/4 by norm_num]
    exact_mod_cast mathRound_nonneg_eq (173/4) 43 (by norm_num) (by norm_num) (by norm_num)
  have h0 : mathRound ((43250 : ℚ) * (0/10000) * 100) = 0 := by
    rw [show ((43250 : ℚ) * (0/10000) * 100) = 0 by norm_num]
    exact_mod_cast mathRound_nonneg_eq 0 0 (by norm_num) (by norm_num) (by norm_num)
  show mathRound ((43250 : ℚ) * (1/100000) * 100) / 100 ≠
    mathRound (43250 * (mathRound ((1/100000 : ℚ) * 10000) / 10000) * 100) / 100
  rw [hA, hT, h0]
  norm_num

/-- C5 (amended): the `total` field equals price × raw drawn amount rounded
to 2 decimal places once, at event construction; and a publish enqueues that
one identical message object onto every registered sink with free queue
space, so all such subscribers receive the identical rounded total. -/
theorem c5_total_rounded_once_at_construction (symbol : String)
    (price amountRaw : ℚ) (side id ts : String) (s : HubState)
    (hnd : s.clients.Nodup)
    (hop : ∀ i ∈ s.clients, (s.chans i).closed = false) :
    (generateTrade symbol price amountRaw side id ts).Total =
      mathRound (price * amountRaw * 100) / 100 ∧
    ∃ s', broadcast (tradeMsg (generateTrade symbol price amountRaw side id ts)) s = .ok s' ∧
      ∀ i ∈ s.clients, (s.chans i).buffer.length < (s.chans i).capacity →
        (s'.chans i).buffer =
          (s.chans i).buffer ++ [tradeMsg (generateTrade symbol price amountRaw side id ts)] := by
  refine ⟨rfl, ?_⟩
  obtain ⟨s', h1, _, _, h4⟩ := broadcast_ok _ hnd hop
  refine ⟨s', h1, ?_⟩
  intro i hi hlt
  rw [h4 i]
  simp [hi, sendResult, hlt]

/-- Witness for C5 at a concrete trade and the demo hub. -/
theorem c5_total_rounded_once_at_construction_witness :
    demoHub.clients.Nodup ∧
    (∀ i ∈ demoHub.clients, (demoHub.chans i).closed = false) ∧
    ((generateTrade "BTC" 43250 2 "buy" "T1" "00:00:00").Total =
      mathRound (43250 * 2 * 100) / 100 ∧
    ∃ s', broadcast (tradeMsg (generateTrade "BTC" 43250 2 "buy" "T1" "00:00:00")) demoHub
        = .ok s' ∧
      ∀ i ∈ demoHub.clients,
        (demoHub.chans i).buffer.length < (demoHub.chans i).capacity →
          (s'.chans i).buffer =
            (demoHub.chans i).buffer ++
              [tradeMsg (generateTrade "BTC" 43250 2 "buy" "T1" "00:00:00")]) :=
  ⟨by decide, by decide,
    c5_total_rounded_once_at_construction "BTC" 43250 2 "buy" "T1" "00:00:00" demoHub
      (by decide) (by decide)⟩

/-! ## Transport serialization (C9) -/

/-- `sendSSE` (`main.go` lines 337-344): marshal the envelope; on failure
return without writing anything, otherwise write the two framing lines. The
marshalling function is a parameter (it is `encoding/json`, external to the
program). The returned list is the sequence of writes to that subscriber's
stream. -/
def sendSSE (marshal : SSEMessage → Option String) (msg : SSEMessage) : List String :=
  match marshal msg with
  | none => []
  | some d => [ "event: message\n", "data: " ++ d ++ "\n\n" ]

/-- The per-subscriber transport loop of `handleSSE`: drain the queued
messages in order, writing each one's `sendSSE` output. -/
def clientLoopOutput (marshal : SSEMessage → Option String) :
    List SSEMessage → List String
  | [] => []
  | m :: ms => sendSSE marshal m ++ clientLoopOutput marshal ms

/-- C9: if serializing an event fails, nothing at all is written to that
subscriber's stream for that event, and the loop delivers all other events
exactly as it would have without the failing one — the failure neither tears
down the delivery loop nor affects any other delivery. -/
theorem c9_serialization_failure_skips_only_that_delivery
    (marshal : SSEMessage → Option String) (pre post : List SSEMessage)
    (bad : SSEMessage) (hbad : marshal bad = none) :
    sendSSE marshal bad = [] ∧
    clientLoopOutput marshal (pre ++ bad :: post) =
      clientLoopOutput marshal pre ++ clientLoopOutput marshal post := by
  have h1 : sendSSE marshal bad = [] := by simp [sendSSE, hbad]
  refine ⟨h1, ?_⟩
  induction pre with
  | nil => simp [clientLoopOutput, h1]
  | cons m ms ih => simp [clientLoopOutput, ih, List.append_assoc]

/-- Witness for C9 with a marshaller that fails on every payload. -/
theorem c9_serialization_failure_skips_only_that_delivery_witness :
    (fun _ : SSEMessage => (none : Option String)) demoMsg = none ∧
    (sendSSE (fun _ => none) demoMsg = [] ∧
      clientLoopOutput (fun _ => none) ([] ++ demoMsg :: [demoMsg]) =
        clientLoopOutput (fun _ => none) [] ++ clientLoopOutput (fun _ => none) [demoMsg]) :=
  ⟨rfl, c9_serialization_failure_skips_only_that_delivery
    (fun _ => none) [] [demoMsg] demoMsg rfl⟩

/-! ## Lock discipline of the market-state map (C7)

The program declares exactly two mutexes, `clientsMu` and `statsMu`. To
state which lock guards the `cryptos` map, the bodies of `updatePrices` and
`getCryptoList` are embedded as traces of lock operations and market-map
accesses, in program order, and the lock set held at each access is
computed from the trace. -/

/-- The mutexes declared by the program. -/
inductive Lock where
  | clientsMu
  | statsMu
deriving DecidableEq

/-- One event of a function body: a market-map entry access (read or write
of a symbol's fields) or a lock acquire/release. -/
inductive Access where
  | marketRead (sym : String)
  | marketWrite (sym : String)
  | acq (l : Lock)
  | rel (l : Lock)
deriving DecidableEq

/-- `getCryptoList` (`main.go` lines 280-286): copies every symbol's entry
out of the `cryptos` map; the body contains no lock operation. -/
def getCryptoListTrace : List Access :=
  symbols.map Access.marketRead

/-- `updatePrices` (`main.go` lines 167-199): for each symbol a
read-modify-write of its map entry with no lock operation around it; then
the snapshot payload is built by `getCryptoList` (evaluated before
`broadcast` is entered); finally `broadcast` holds `clientsMu` (as RLock)
for the fan-out only. -/
def updatePricesTrace : List Access :=
  (symbols.map fun sym => [Access.marketRead sym, Access.marketWrite sym]).flatten
    ++ getCryptoListTrace
    ++ [Access.acq Lock.clientsMu, Access.rel Lock.clientsMu]

/-- The lock set after one trace event. -/
def stepHeld (hs : List Lock) : Access → List Lock
  | .acq l => l :: hs
  | .rel l => hs.erase l
  | _ => hs

/-- Pair every trace event with the lock set held when it happens. -/
def annotateHeld : List Lock → List Access → List (Access × List Lock)
  | _, [] => []
  | hs, a :: rest => (a, hs) :: annotateHeld (stepHeld hs a) rest

/-- `l` guards the market map in trace `tr`: every market access in `tr`
happens while `l` is held. -/
def marketGuardedBy (tr : List Access) (l : Lock) : Bool :=
  (annotateHeld [] tr).all fun p =>
    match p.1 with
    | .marketRead _ => p.2.contains l
    | .marketWrite _ => p.2.contains l
    | _ => true

/-- C7 (code behaviour): no lock of the program guards the market-state
map — neither the read-modify-writes of a price tick nor the snapshot reads
of `getCryptoList` happen under `clientsMu` or `statsMu`, so there is no
single lock under which both happen. -/
theorem c7_market_state_not_lock_guarded :
    marketGuardedBy updatePricesTrace Lock.clientsMu = false ∧
    marketGuardedBy updatePricesTrace Lock.statsMu = false ∧
    marketGuardedBy getCryptoListTrace Lock.clientsMu = false ∧
    marketGuardedBy getCryptoListTrace Lock.statsMu = false := by
  refine ⟨?_, ?_, ?_, ?_⟩ <;> decide

end CryptoStream
